import Mathlib

/-!
Verification of the dirac-hashes core against its specification.

The definitions below are shallow embeddings of the Python sources in
`src/quantum_hash/core/simd_optimized.py` and
`src/quantum_hash/signatures/lamport.py`.  Bytes are modelled as `Nat`
values (< 256), byte strings as `List Nat`, and 32-bit machine words as
`Nat` values masked with `&&& 0xFFFFFFFF` exactly where the source (under
its declared numba `uint32` typing) wraps.
-/

set_option maxRecDepth 100000

namespace DiracHashes

/-- The `PRIMES` constant table of `simd_optimized.py` (12 entries). -/
def PRIMES : List Nat :=
  [0x9e3779b9, 0x6a09e667, 0xbb67ae85, 0x3c6ef372,
   0xa54ff53a, 0x510e527f, 0x9b05688c, 0x1f83d9ab,
   0x5be0cd19, 0xca62c1d6, 0x84caa73b, 0xfe94f82b]

/-- The `ROTATIONS` constant table (10 entries). -/
def ROTATIONS : List Nat := [7, 11, 13, 17, 19, 23, 29, 31, 5, 3]

/-- The `EXTRA_PRIMES` constant table (12 entries). -/
def EXTRA_PRIMES : List Nat :=
  [0x243f6a88, 0x85a308d3, 0x13198a2e, 0x03707344,
   0xa4093822, 0x299f31d0, 0x082efa98, 0xec4e6c89,
   0x452821e6, 0x38d01377, 0xbe5466cf, 0x34e90c6c]

/-- `rotate_left(value, shift)`: circular left rotation inside 32 bits,
masked as in the source. -/
def rotate_left (value shift : Nat) : Nat :=
  ((value <<< shift) ||| (value >>> (32 - shift))) &&& 0xFFFFFFFF

/-- `mix_bits(a, b)`: the fixed mixing sequence of `simd_optimized.py`;
under numba `uint32` typing the unmasked multiplication and the final
addition wrap modulo 2^32, hence the explicit masks. -/
def mix_bits (a b : Nat) : Nat × Nat :=
  let a1 := (a + b) &&& 0xFFFFFFFF
  let b1 := rotate_left b 13 ^^^ a1
  let a2 := (rotate_left a1 7 + b1) &&& 0xFFFFFFFF
  let b2 := rotate_left b1 17 ^^^ a2
  let a3 := (a2 + b2) &&& 0xFFFFFFFF
  let b3 := rotate_left b2 5 ^^^ ((a3 * 0x9e3779b9) &&& 0xFFFFFFFF)
  let a4 := (rotate_left a3 11 + rotate_left b3 19) &&& 0xFFFFFFFF
  (a4, b3)

/-- Little-endian 32-bit word assembled from four bytes of `l` starting
at offset `off` (missing positions read as the padding byte 0). -/
def le32 (l : List Nat) (off : Nat) : Nat :=
  l.getD off 0 ||| (l.getD (off + 1) 0 <<< 8) |||
    (l.getD (off + 2) 0 <<< 16) ||| (l.getD (off + 3) 0 <<< 24)

/-- Serialization of the word state to `ds` output bytes: byte `idx` is
written from word `idx / 4` only when `idx / 4 < min state.length cap`
(the loop bound of the source); other positions keep the zero byte the
output buffer was initialized with. -/
def stateToBytes (cap : Nat) (state : List Nat) (ds : Nat) : List Nat :=
  (List.range ds).map fun idx =>
    if idx / 4 < min state.length cap then
      (state.getD (idx / 4) 0 >>> ((idx % 4) * 8)) &&& 0xFF
    else 0

/-! ### Grover-inspired hash (`numba_enhanced_grover_hash`) -/

/-- Grover initial state: `digest_size`-many words drawn cyclically from
`PRIMES` (note: `digest_size` words, not `ceil(digest_size/4)`). -/
def groverInitState (ds : Nat) : List Nat :=
  (List.range ds).map fun i => PRIMES.getD (i % PRIMES.length) 0

/-- Input padded with zero bytes to a multiple of 4. -/
def groverPad (data : List Nat) : List Nat :=
  data ++ List.replicate (((data.length + 3) / 4) * 4 - data.length) 0

/-- The 32-bit chunk sequence: little-endian words of the padded input
followed by the input length as the final chunk. -/
def groverChunks (data : List Nat) : List Nat :=
  ((List.range ((data.length + 3) / 4)).map fun i => le32 (groverPad data) (4 * i))
    ++ [data.length &&& 0xFFFFFFFF]

/-- One of the 4 mixing rounds applied to a state word: `mix_bits`, a
scheduled rotation of `b`, and a wrapped prime multiplication of `a`. -/
def groverRound (i : Nat) (p : Nat × Nat) (r : Nat) : Nat × Nat :=
  let q := mix_bits p.1 p.2
  let b := rotate_left q.2 (ROTATIONS.getD (r % ROTATIONS.length) 0)
  let a := (q.1 * PRIMES.getD ((i + r) % PRIMES.length) 0) &&& 0xFFFFFFFF
  (a, b)

/-- New value of state word `i` after absorbing `chunk`. -/
def groverWordUpdate (chunk i a : Nat) : Nat :=
  let b := chunk ^^^ PRIMES.getD (i % PRIMES.length) 0
             ^^^ EXTRA_PRIMES.getD (i % EXTRA_PRIMES.length) 0
  let p := (List.range 4).foldl (groverRound i) (a, b)
  p.1 ^^^ p.2

/-- Per-chunk state update: every word is updated independently from its
own previous value (the source's parallel loop). -/
def groverChunkUpdate (chunk : Nat) (state : List Nat) : List Nat :=
  (List.range state.length).map fun i => groverWordUpdate chunk i (state.getD i 0)

/-- Cross-word diffusion pass applied after each chunk; reads the frozen
copy `temp_state` of the source. -/
def groverDiffuse (state : List Nat) : List Nat :=
  (List.range state.length).map fun i =>
    let n := state.length
    let j := (i + 1) % n
    let k := (i + n / 2) % n
    let t := rotate_left (state.getD i 0) 5 ^^^ state.getD j 0
               ^^^ rotate_left (state.getD k 0) 13
    (t + rotate_left t 11) &&& 0xFFFFFFFF

/-- Absorb all chunks: chunk update then diffusion, per chunk. -/
def groverAbsorb (data : List Nat) (state : List Nat) : List Nat :=
  (groverChunks data).foldl (fun st c => groverDiffuse (groverChunkUpdate c st)) state

/-- One final mixing round: sequential pairwise `mix_bits` over the
triple `(i, i+1, i+len/2)` selected by the round counter `r`. -/
def groverFinalRound (state : List Nat) (r : Nat) : List Nat :=
  let n := state.length
  let i := r % n
  let j := (i + 1) % n
  let k := (i + n / 2) % n
  let p1 := mix_bits (state.getD i 0) (state.getD j 0)
  let s1 := (state.set i p1.1).set j p1.2
  let p2 := mix_bits (s1.getD j 0) (s1.getD k 0)
  let s2 := (s1.set j p2.1).set k p2.2
  let p3 := mix_bits (s2.getD k 0) (s2.getD i 0)
  (s2.set k p3.1).set i p3.2

/-- The `2 * digest_size` final mixing rounds. -/
def groverFinalMix (ds : Nat) (state : List Nat) : List Nat :=
  (List.range (ds * 2)).foldl groverFinalRound state

/-- `numba_enhanced_grover_hash(data, digest_size)`. -/
def numba_enhanced_grover_hash (data : List Nat) (digest_size : Nat) : List Nat :=
  let d := if data.isEmpty then [0] else data
  stateToBytes (digest_size / 4)
    (groverFinalMix digest_size (groverAbsorb d (groverInitState digest_size)))
    digest_size

/-! ### Shor-inspired hash (`numba_enhanced_shor_hash`) -/

/-- Shor initial state: `ceil(digest_size / 4)`-many words drawn
cyclically from `PRIMES`. -/
def shorInitState (ds : Nat) : List Nat :=
  (List.range ((ds + 3) / 4)).map fun i => PRIMES.getD (i % PRIMES.length) 0

/-- Input padded with zero bytes to a multiple of the 64-byte block size. -/
def shorPad (data : List Nat) : List Nat :=
  data ++ List.replicate (((data.length + 63) / 64) * 64 - data.length) 0

/-- One of the 4 rounds mixing an adjacent state-word pair. -/
def shorRound (p : Nat × Nat) (r : Nat) : Nat × Nat :=
  let q := mix_bits p.1 p.2
  let a := rotate_left q.1 (ROTATIONS.getD (r % ROTATIONS.length) 0)
  let b := (q.2 + EXTRA_PRIMES.getD (r % EXTRA_PRIMES.length) 0) &&& 0xFFFFFFFF
  (a, b)

/-- Mixing of the pair `(j, (j+1) % n)`, written back in place. -/
def shorPairMix (state : List Nat) (j : Nat) : List Nat :=
  let k := (j + 1) % state.length
  let p := (List.range 4).foldl shorRound (state.getD j 0, state.getD k 0)
  (state.set j p.1).set k p.2

/-- Absorbing one 32-bit chunk at byte offset `i` of the block: XOR into
the slot selected by position, then mix every adjacent pair. -/
def shorChunkUpdate (chunk i : Nat) (state : List Nat) : List Nat :=
  let idx := (i / 4) % state.length
  let st := state.set idx (state.getD idx 0 ^^^ chunk)
  (List.range st.length).foldl shorPairMix st

/-- Processing of 64-byte block number `blockIdx`: 16 chunk updates, then
the `(i*7+1, i*5+3)` permutation over a frozen copy of the state. -/
def shorBlock (padded : List Nat) (state : List Nat) (blockIdx : Nat) : List Nat :=
  let temp := (List.range 16).foldl
    (fun st c => shorChunkUpdate (le32 padded (64 * blockIdx + 4 * c)) (4 * c) st)
    state
  (List.range temp.length).foldl
    (fun st i =>
      st.set ((i * 7 + 1) % temp.length)
        (temp.getD i 0 ^^^ rotate_left (temp.getD ((i * 5 + 3) % temp.length) 0) 13))
    temp

/-- Finalization of state word `i`: XOR of the data length, then 4
diffusion rounds over three neighbouring words with a wrapped prime
multiplication. -/
def shorFinalizeWord (len32 : Nat) (state : List Nat) (i : Nat) : List Nat :=
  let st0 := state.set i (state.getD i 0 ^^^ len32)
  (List.range 4).foldl
    (fun st j =>
      let n := st.length
      let idx1 := (i + j + 1) % n
      let idx2 := (i + j + 2) % n
      let idx3 := (i + j + 3) % n
      let v := rotate_left (st.getD i 0) 9 ^^^ st.getD idx1 0
                 ^^^ rotate_left (st.getD idx2 0) 13 ^^^ st.getD idx3 0
      st.set i ((v * PRIMES.getD (j % PRIMES.length) 0) &&& 0xFFFFFFFF))
    st0

/-- Finalization pass over the whole state. -/
def shorFinalize (dataLen : Nat) (state : List Nat) : List Nat :=
  (List.range state.length).foldl (shorFinalizeWord (dataLen &&& 0xFFFFFFFF)) state

/-- `numba_enhanced_shor_hash(data, digest_size)`. -/
def numba_enhanced_shor_hash (data : List Nat) (digest_size : Nat) : List Nat :=
  let d := if data.isEmpty then [0] else data
  let padded := shorPad d
  let state := (List.range (padded.length / 64)).foldl
    (fun st b => shorBlock padded st b) (shorInitState digest_size)
  stateToBytes (digest_size / 4 + 1) (shorFinalize d.length state) digest_size

/-! ### Hybrid hash (`numba_enhanced_hybrid_hash`) -/

/-- Byte-by-byte interleaving of the two half-digests: even output
positions from the grover half, odd from the shor half; when the digest
size is odd, the last byte is the XOR of both last half-digest bytes. -/
def hybridInterleave (g s : List Nat) (ds : Nat) : List Nat :=
  let half := ds / 2
  (List.range ds).map fun idx =>
    if ds % 2 = 1 ∧ idx = ds - 1 then g.getD (half - 1) 0 ^^^ s.getD (half - 1) 0
    else if idx % 2 = 0 then g.getD (idx / 2) 0
    else s.getD (idx / 2) 0

/-- Reassembly of `n` little-endian 32-bit words from output bytes. -/
def packWords (bytes : List Nat) (n : Nat) : List Nat :=
  (List.range n).map fun i => le32 bytes (4 * i)

/-- One `mix_bits` exchange between word `i` and word `(i+j) % n`. -/
def hybridMixStep (st : List Nat) (i j : Nat) : List Nat :=
  let idx := (i + j) % st.length
  let p := mix_bits (st.getD i 0) (st.getD idx 0)
  (st.set i p.1).set idx p.2

/-- The 4 global mixing rounds over the reassembled word state. -/
def hybridMix (state : List Nat) : List Nat :=
  (List.range 4).foldl
    (fun st _ =>
      (List.range st.length).foldl
        (fun st2 i =>
          (List.range' 1 (min 4 st2.length - 1)).foldl
            (fun st3 j => hybridMixStep st3 i j) st2)
        st)
    state

/-- Combination step shared by the two half-digests: interleave, pack
into words, mix 4 global rounds, serialize back to bytes. -/
def hybridCombine (g s : List Nat) (ds : Nat) : List Nat :=
  let state := hybridMix (packWords (hybridInterleave g s ds) ((ds + 3) / 4))
  (List.range ds).map fun idx => (state.getD (idx / 4) 0 >>> ((idx % 4) * 8)) &&& 0xFF

/-- `numba_enhanced_hybrid_hash(data, digest_size)`: remap empty input,
then hash the `0x01`- and `0x02`-prefixed copies to half size each and
combine. -/
def numba_enhanced_hybrid_hash (data : List Nat) (digest_size : Nat) : List Nat :=
  let d := if data.isEmpty then [0] else data
  hybridCombine
    (numba_enhanced_grover_hash (0x01 :: d) (digest_size / 2))
    (numba_enhanced_shor_hash (0x02 :: d) (digest_size / 2))
    digest_size

/-- The hybrid construction exactly as the specification words it (the
refinement target): hash `data` prefixed with `0x01` with the grover
function to `digest_size / 2` bytes, hash `data` prefixed with `0x02`
with the shor function to `digest_size / 2` bytes, interleave byte by
byte with the odd leftover byte equal to the XOR of both tails, and
apply the 4 global mixing rounds over the reassembled 32-bit word
state.  It differs from the source only in not remapping empty input
before prefixing. -/
def hybridSpecConstruction (data : List Nat) (digest_size : Nat) : List Nat :=
  hybridCombine
    (numba_enhanced_grover_hash (0x01 :: data) (digest_size / 2))
    (numba_enhanced_shor_hash (0x02 :: data) (digest_size / 2))
    digest_size

/-! ### Backend dispatchers

The C extension modules `optimized_core` and `hybrid_core` are compiled
artifacts whose sources are not part of the repository tree; only the
dispatchers that call them are. -/

/-- Modelled from the spec: the natively-compiled backend
`optimized_grover_hash_c` (from the absent `optimized_core` C extension)
is required to return the same digest, bit for bit, as the scalar
implementation of the same algorithm. -/
def optimized_grover_hash_c (data : List Nat) (digest_size : Nat) : List Nat :=
  numba_enhanced_grover_hash data digest_size

/-- Modelled from the spec: the natively-compiled backend
`optimized_shor_hash_c` (from the absent `optimized_core` C extension)
is required to return the same digest, bit for bit, as the scalar
implementation of the same algorithm. -/
def optimized_shor_hash_c (data : List Nat) (digest_size : Nat) : List Nat :=
  numba_enhanced_shor_hash data digest_size

/-- Modelled from the spec: the natively-compiled backend
`optimized_hybrid_hash_c` (from the absent `hybrid_core` C extension)
is required to return the same digest, bit for bit, as the scalar
implementation of the same algorithm. -/
def optimized_hybrid_hash_c (data : List Nat) (digest_size : Nat) : List Nat :=
  numba_enhanced_hybrid_hash data digest_size

/-- `optimized_grover_hash`: dispatch on `_HAVE_C_EXTENSIONS`. -/
def optimized_grover_hash (haveC : Bool) (data : List Nat) (digest_size : Nat) : List Nat :=
  if haveC then optimized_grover_hash_c data digest_size
  else numba_enhanced_grover_hash data digest_size

/-- `optimized_shor_hash`: dispatch on `_HAVE_C_EXTENSIONS`. -/
def optimized_shor_hash (haveC : Bool) (data : List Nat) (digest_size : Nat) : List Nat :=
  if haveC then optimized_shor_hash_c data digest_size
  else numba_enhanced_shor_hash data digest_size

/-- `optimized_hybrid_hash`: dispatch on `_HAVE_C_EXTENSIONS`. -/
def optimized_hybrid_hash (haveC : Bool) (data : List Nat) (digest_size : Nat) : List Nat :=
  if haveC then optimized_hybrid_hash_c data digest_size
  else numba_enhanced_hybrid_hash data digest_size

/-! ### Lamport one-time signatures (`lamport.py`)

`LamportSignature` hashes through `DiracHash.hash`, whose module
(`dirac.py`) is not part of the repository tree; the scheme is therefore
parameterized over the digest function `H` it is handed.  Exceptions
raised by Python lookups are modelled with `Except`. -/

/-- Python exceptions that the Lamport operations can raise on malformed
input (`KeyError` from a dict lookup, `IndexError` from a list or bytes
lookup).  `invalidKeyMaterial` is modelled from the spec: its §7 error
taxonomy names a dedicated `InvalidKeyMaterial` error for wrong-shaped
key material, which appears nowhere in the repository tree; the
constructor exists so that statements can compare the errors actually
raised against it. -/
inductive PyError where
  | indexError
  | keyError
  | invalidKeyMaterial
  deriving DecidableEq, Repr

namespace LamportSignature

/-- Bit `i` of the message digest, most-significant-bit-first inside
each byte, as the pure value (defined when the indexed byte exists). -/
def digestBitP (digest : List Nat) (i : Nat) : Nat :=
  if digest.getD (i / 8) 0 &&& (1 <<< (7 - i % 8)) ≠ 0 then 1 else 0

/-- Bit extraction as executed: indexing `digest[i // 8]` raises
`IndexError` when the byte does not exist. -/
def digestBit (digest : List Nat) (i : Nat) : Except PyError Nat :=
  if i / 8 < digest.length then .ok (digestBitP digest i) else .error .indexError

/-- The signing loop over the remaining bit positions: for each position
the selected private-key entry (`KeyError` when absent) is appended. -/
def signLoop (digest : List Nat) (priv : List (List Nat × List Nat)) :
    List Nat → Except PyError (List (List Nat))
  | [] => .ok []
  | i :: rest =>
    match digestBit digest i with
    | .error e => .error e
    | .ok bit =>
      if i < priv.length then
        let entry := priv.getD i ([], [])
        match signLoop digest priv rest with
        | .error e => .error e
        | .ok tail => .ok ((if bit = 1 then entry.2 else entry.1) :: tail)
      else .error .keyError

/-- `LamportSignature.sign`: hash the message with `H`, then select one
private-key entry per digest bit over positions `[0, 256)`. -/
def sign (H : List Nat → List Nat) (message : List Nat)
    (priv : List (List Nat × List Nat)) : Except PyError (List (List Nat)) :=
  signLoop (H message) priv (List.range 256)

/-- The verification loop over the remaining bit positions: hash the
signature component (`IndexError` when absent), compare against the
selected public-key entry (`KeyError` when absent); the first mismatch
returns `false`. -/
def verifyLoop (H : List Nat → List Nat) (digest : List Nat)
    (sig : List (List Nat)) (pub : List (List Nat × List Nat)) :
    List Nat → Except PyError Bool
  | [] => .ok true
  | i :: rest =>
    match digestBit digest i with
    | .error e => .error e
    | .ok bit =>
      if i < sig.length then
        if i < pub.length then
          let entry := pub.getD i ([], [])
          if H (sig.getD i []) = (if bit = 1 then entry.2 else entry.1) then
            verifyLoop H digest sig pub rest
          else .ok false
        else .error .keyError
      else .error .indexError

/-- `LamportSignature.verify`: hash the message with `H`, then check all
256 bit positions. -/
def verify (H : List Nat → List Nat) (message : List Nat)
    (sig : List (List Nat)) (pub : List (List Nat × List Nat)) :
    Except PyError Bool :=
  verifyLoop H (H message) sig pub (List.range 256)

/-- `LamportSignature.generate_keypair`, with the stream of freshly
drawn 32-byte secrets supplied as `sk` (position, bit value ↦ secret):
the private key keeps the secrets, the public key their `H`-digests. -/
def generate_keypair (H : List Nat → List Nat) (sk : Nat → Nat → List Nat) :
    List (List Nat × List Nat) × List (List Nat × List Nat) :=
  ((List.range 256).map fun i => (sk i 0, sk i 1),
   (List.range 256).map fun i => (H (sk i 0), H (sk i 1)))

/-- The public-key entry that `verify` compares against at position `i`,
for a public key given as `(List.range 256).map pubf`. -/
def expectedEntry (H : List Nat → List Nat) (m : List Nat)
    (pubf : Nat → List Nat × List Nat) (i : Nat) : List Nat :=
  if digestBitP (H m) i = 1 then (pubf i).2 else (pubf i).1

end LamportSignature

/-! ## Helper lemmas -/

theorem mask32_lt (x : Nat) : x &&& 0xFFFFFFFF < 2 ^ 32 := by
  have h := Nat.and_le_right (n := x) (m := 0xFFFFFFFF)
  have h2 : (2 : Nat) ^ 32 = 4294967296 := by norm_num
  omega

theorem rotate_left_lt (v s : Nat) : rotate_left v s < 2 ^ 32 := mask32_lt _

theorem mix_bits_lt (a b : Nat) :
    (mix_bits a b).1 < 2 ^ 32 ∧ (mix_bits a b).2 < 2 ^ 32 := by
  simp only [mix_bits]
  exact ⟨mask32_lt _, Nat.xor_lt_two_pow (rotate_left_lt _ _) (mask32_lt _)⟩

theorem groverRound_lt (i : Nat) (p : Nat × Nat) (r : Nat) :
    (groverRound i p r).1 < 2 ^ 32 ∧ (groverRound i p r).2 < 2 ^ 32 := by
  simp only [groverRound]
  exact ⟨mask32_lt _, rotate_left_lt _ _⟩

theorem groverWordUpdate_lt (c i a : Nat) : groverWordUpdate c i a < 2 ^ 32 := by
  have h4 : List.range 4 = [0, 1, 2, 3] := rfl
  unfold groverWordUpdate
  rw [h4]
  simp only [List.foldl_cons, List.foldl_nil]
  exact Nat.xor_lt_two_pow (groverRound_lt _ _ 3).1 (groverRound_lt _ _ 3).2

theorem setPreserve (l : List Nat) (n v : Nat) (hl : ∀ y ∈ l, y < 2 ^ 32)
    (hv : v < 2 ^ 32) : ∀ y ∈ l.set n v, y < 2 ^ 32 := by
  intro y hy
  rcases List.mem_or_eq_of_mem_set hy with h | rfl
  · exact hl _ h
  · exact hv

theorem groverChunkUpdate_mem_lt (c : Nat) (st : List Nat) :
    ∀ x ∈ groverChunkUpdate c st, x < 2 ^ 32 := by
  intro x hx
  simp only [groverChunkUpdate, List.mem_map, List.mem_range] at hx
  obtain ⟨i, _, rfl⟩ := hx
  exact groverWordUpdate_lt _ _ _

theorem groverDiffuse_mem_lt (st : List Nat) :
    ∀ x ∈ groverDiffuse st, x < 2 ^ 32 := by
  intro x hx
  simp only [groverDiffuse, List.mem_map, List.mem_range] at hx
  obtain ⟨i, _, rfl⟩ := hx
  exact mask32_lt _

theorem groverFinalRound_mem_lt (st : List Nat) (r : Nat)
    (hst : ∀ x ∈ st, x < 2 ^ 32) : ∀ x ∈ groverFinalRound st r, x < 2 ^ 32 := by
  unfold groverFinalRound
  exact setPreserve _ _ _
    (setPreserve _ _ _
      (setPreserve _ _ _
        (setPreserve _ _ _
          (setPreserve _ _ _
            (setPreserve _ _ _ hst (mix_bits_lt _ _).1)
            (mix_bits_lt _ _).2)
          (mix_bits_lt _ _).1)
        (mix_bits_lt _ _).2)
      (mix_bits_lt _ _).1)
    (mix_bits_lt _ _).2

theorem foldl_mem_lt {β : Type} (f : List Nat → β → List Nat)
    (hf : ∀ (s : List Nat) (x : β), (∀ y ∈ s, y < 2 ^ 32) → ∀ y ∈ f s x, y < 2 ^ 32) :
    ∀ (l : List β) (s : List Nat), (∀ y ∈ s, y < 2 ^ 32) → ∀ y ∈ l.foldl f s, y < 2 ^ 32
  | [], _, hs => hs
  | x :: l, s, hs => foldl_mem_lt f hf l (f s x) (hf s x hs)

theorem getD_lt_of_mem_lt (st : List Nat) (n : Nat) (hst : ∀ x ∈ st, x < 2 ^ 32) :
    st.getD n 0 < 2 ^ 32 := by
  by_cases h : n < st.length
  · rw [List.getD_eq_getElem _ _ h]
    exact hst _ (List.getElem_mem h)
  · rw [List.getD_eq_getElem?_getD, List.getElem?_eq_none (by omega)]
    norm_num

theorem byte_getD_lt (l : List Nat) (n : Nat) (hl : ∀ b ∈ l, b < 256) :
    l.getD n 0 < 256 := by
  by_cases h : n < l.length
  · rw [List.getD_eq_getElem _ _ h]
    exact hl _ (List.getElem_mem h)
  · rw [List.getD_eq_getElem?_getD, List.getElem?_eq_none (by omega)]
    norm_num

theorem byte_shift_lt (b s : Nat) (hb : b < 256) (hs : s ≤ 24) : b <<< s < 2 ^ 32 := by
  rw [Nat.shiftLeft_eq]
  calc b * 2 ^ s < 256 * 2 ^ s := by
        exact (Nat.mul_lt_mul_right (pow_pos (by norm_num) s)).mpr hb
    _ ≤ 256 * 2 ^ 24 := Nat.mul_le_mul_left 256 (Nat.pow_le_pow_right (by norm_num) hs)
    _ = 2 ^ 32 := by norm_num

theorem le32_lt (l : List Nat) (off : Nat) (hl : ∀ b ∈ l, b < 256) :
    le32 l off < 2 ^ 32 := by
  unfold le32
  refine Nat.or_lt_two_pow (Nat.or_lt_two_pow (Nat.or_lt_two_pow ?_ ?_) ?_) ?_
  · exact lt_of_lt_of_le (byte_getD_lt l off hl) (by norm_num)
  · exact byte_shift_lt _ 8 (byte_getD_lt l (off + 1) hl) (by norm_num)
  · exact byte_shift_lt _ 16 (byte_getD_lt l (off + 2) hl) (by norm_num)
  · exact byte_shift_lt _ 24 (byte_getD_lt l (off + 3) hl) (by norm_num)

theorem shorRound_lt (p : Nat × Nat) (r : Nat) :
    (shorRound p r).1 < 2 ^ 32 ∧ (shorRound p r).2 < 2 ^ 32 := by
  simp only [shorRound]
  exact ⟨rotate_left_lt _ _, mask32_lt _⟩

theorem shorFold_lt (p : Nat × Nat) :
    ((List.range 4).foldl shorRound p).1 < 2 ^ 32
    ∧ ((List.range 4).foldl shorRound p).2 < 2 ^ 32 := by
  have h4 : List.range 4 = [0, 1, 2, 3] := rfl
  rw [h4]
  simp only [List.foldl_cons, List.foldl_nil]
  exact shorRound_lt _ 3

theorem shorPairMix_mem_lt (st : List Nat) (j : Nat)
    (hst : ∀ x ∈ st, x < 2 ^ 32) : ∀ x ∈ shorPairMix st j, x < 2 ^ 32 := by
  unfold shorPairMix
  exact setPreserve _ _ _ (setPreserve _ _ _ hst (shorFold_lt _).1) (shorFold_lt _).2

theorem shorChunkUpdate_mem_lt (chunk i : Nat) (st : List Nat)
    (hst : ∀ x ∈ st, x < 2 ^ 32) (hc : chunk < 2 ^ 32) :
    ∀ x ∈ shorChunkUpdate chunk i st, x < 2 ^ 32 := by
  unfold shorChunkUpdate
  exact foldl_mem_lt shorPairMix (fun s j hs => shorPairMix_mem_lt s j hs) _ _
    (setPreserve _ _ _ hst (Nat.xor_lt_two_pow (getD_lt_of_mem_lt st _ hst) hc))

theorem shorBlock_mem_lt (padded st : List Nat) (bi : Nat)
    (hst : ∀ x ∈ st, x < 2 ^ 32) (hpad : ∀ y ∈ padded, y < 256) :
    ∀ x ∈ shorBlock padded st bi, x < 2 ^ 32 := by
  have htemp : ∀ y ∈ (List.range 16).foldl
      (fun s c => shorChunkUpdate (le32 padded (64 * bi + 4 * c)) (4 * c) s) st,
      y < 2 ^ 32 :=
    foldl_mem_lt _ (fun s c hs =>
      shorChunkUpdate_mem_lt (le32 padded (64 * bi + 4 * c)) (4 * c) s hs
        (le32_lt padded _ hpad)) _ _ hst
  unfold shorBlock
  exact foldl_mem_lt _ (fun s i hs =>
    setPreserve _ _ _ hs (Nat.xor_lt_two_pow (getD_lt_of_mem_lt _ _ htemp)
      (rotate_left_lt _ _))) _ _ htemp

theorem shorFinalizeWord_mem_lt (len32 : Nat) (st : List Nat) (i : Nat)
    (hst : ∀ x ∈ st, x < 2 ^ 32) (hlen : len32 < 2 ^ 32) :
    ∀ x ∈ shorFinalizeWord len32 st i, x < 2 ^ 32 := by
  unfold shorFinalizeWord
  exact foldl_mem_lt _ (fun s j hs => setPreserve _ _ _ hs (mask32_lt _)) _ _
    (setPreserve _ _ _ hst (Nat.xor_lt_two_pow (getD_lt_of_mem_lt st _ hst) hlen))

theorem shorFinalize_mem_lt (dataLen : Nat) (st : List Nat)
    (hst : ∀ x ∈ st, x < 2 ^ 32) : ∀ x ∈ shorFinalize dataLen st, x < 2 ^ 32 := by
  unfold shorFinalize
  exact foldl_mem_lt _
    (fun s i hs => shorFinalizeWord_mem_lt _ s i hs (mask32_lt _)) _ _ hst

theorem hybridMixStep_mem_lt (st : List Nat) (i j : Nat)
    (hst : ∀ x ∈ st, x < 2 ^ 32) : ∀ x ∈ hybridMixStep st i j, x < 2 ^ 32 := by
  unfold hybridMixStep
  exact setPreserve _ _ _ (setPreserve _ _ _ hst (mix_bits_lt _ _).1) (mix_bits_lt _ _).2

theorem hybridMix_mem_lt (st : List Nat) (hst : ∀ x ∈ st, x < 2 ^ 32) :
    ∀ x ∈ hybridMix st, x < 2 ^ 32 := by
  unfold hybridMix
  exact foldl_mem_lt _
    (fun s u hs => foldl_mem_lt _
      (fun s2 i hs2 => foldl_mem_lt _
        (fun s3 j hs3 => hybridMixStep_mem_lt s3 i j hs3) _ _ hs2) _ _ hs)
    _ _ hst

/-! ## Theorems for the claims -/

/-- C6: every element of the hash state stays inside `[0, 2^32)` after
every state-updating operation of the grover, shor and hybrid pipelines
(wrap-around arithmetic, not overflow), and the mixing primitives are
total functions from 32-bit inputs to 32-bit outputs: for all `a`, `b`
in `[0, 2^32)` both components of `mix_bits a b` and, for `shift` in
`[1, 31]`, the value `rotate_left a shift` lie in `[0, 2^32)`. -/
theorem mixing_primitives_total (a b shift : Nat) (ha : a < 2 ^ 32) (hb : b < 2 ^ 32)
    (hs1 : 1 ≤ shift) (hs2 : shift ≤ 31) :
    (mix_bits a b).1 < 2 ^ 32 ∧ (mix_bits a b).2 < 2 ^ 32 ∧ rotate_left a shift < 2 ^ 32
    ∧ (∀ (st : List Nat) (chunk : Nat), (∀ x ∈ st, x < 2 ^ 32) → chunk < 2 ^ 32 →
        ∀ x ∈ groverChunkUpdate chunk st, x < 2 ^ 32)
    ∧ (∀ st : List Nat, (∀ x ∈ st, x < 2 ^ 32) → ∀ x ∈ groverDiffuse st, x < 2 ^ 32)
    ∧ (∀ (st : List Nat) (r : Nat), (∀ x ∈ st, x < 2 ^ 32) →
        ∀ x ∈ groverFinalRound st r, x < 2 ^ 32)
    ∧ (∀ (st : List Nat) (j : Nat), (∀ x ∈ st, x < 2 ^ 32) →
        ∀ x ∈ shorPairMix st j, x < 2 ^ 32)
    ∧ (∀ (st : List Nat) (chunk i : Nat), (∀ x ∈ st, x < 2 ^ 32) → chunk < 2 ^ 32 →
        ∀ x ∈ shorChunkUpdate chunk i st, x < 2 ^ 32)
    ∧ (∀ (padded st : List Nat) (bi : Nat), (∀ x ∈ st, x < 2 ^ 32) →
        (∀ y ∈ padded, y < 256) → ∀ x ∈ shorBlock padded st bi, x < 2 ^ 32)
    ∧ (∀ (st : List Nat) (len32 i : Nat), (∀ x ∈ st, x < 2 ^ 32) → len32 < 2 ^ 32 →
        ∀ x ∈ shorFinalizeWord len32 st i, x < 2 ^ 32)
    ∧ (∀ (st : List Nat) (dataLen : Nat), (∀ x ∈ st, x < 2 ^ 32) →
        ∀ x ∈ shorFinalize dataLen st, x < 2 ^ 32)
    ∧ (∀ (st : List Nat) (i j : Nat), (∀ x ∈ st, x < 2 ^ 32) →
        ∀ x ∈ hybridMixStep st i j, x < 2 ^ 32)
    ∧ (∀ st : List Nat, (∀ x ∈ st, x < 2 ^ 32) → ∀ x ∈ hybridMix st, x < 2 ^ 32) := by
  refine ⟨(mix_bits_lt a b).1, (mix_bits_lt a b).2, rotate_left_lt a shift,
    ?_, ?_, ?_, ?_, ?_, ?_, ?_, ?_, ?_, ?_⟩
  · intro st chunk _ _
    exact groverChunkUpdate_mem_lt chunk st
  · intro st _
    exact groverDiffuse_mem_lt st
  · intro st r hst
    exact groverFinalRound_mem_lt st r hst
  · intro st j hst
    exact shorPairMix_mem_lt st j hst
  · intro st chunk i hst hc
    exact shorChunkUpdate_mem_lt chunk i st hst hc
  · intro padded st bi hst hpad
    exact shorBlock_mem_lt padded st bi hst hpad
  · intro st len32 i hst hlen
    exact shorFinalizeWord_mem_lt len32 st i hst hlen
  · intro st dataLen hst
    exact shorFinalize_mem_lt dataLen st hst
  · intro st i j hst
    exact hybridMixStep_mem_lt st i j hst
  · intro st hst
    exact hybridMix_mem_lt st hst

/-- Witness for C6 at `a = 3`, `b = 5`, `shift = 7`. -/
theorem mixing_primitives_total_witness :
    (mix_bits 3 5).1 < 2 ^ 32 ∧ (mix_bits 3 5).2 < 2 ^ 32 ∧ rotate_left 3 7 < 2 ^ 32
    ∧ (∀ (st : List Nat) (chunk : Nat), (∀ x ∈ st, x < 2 ^ 32) → chunk < 2 ^ 32 →
        ∀ x ∈ groverChunkUpdate chunk st, x < 2 ^ 32)
    ∧ (∀ st : List Nat, (∀ x ∈ st, x < 2 ^ 32) → ∀ x ∈ groverDiffuse st, x < 2 ^ 32)
    ∧ (∀ (st : List Nat) (r : Nat), (∀ x ∈ st, x < 2 ^ 32) →
        ∀ x ∈ groverFinalRound st r, x < 2 ^ 32)
    ∧ (∀ (st : List Nat) (j : Nat), (∀ x ∈ st, x < 2 ^ 32) →
        ∀ x ∈ shorPairMix st j, x < 2 ^ 32)
    ∧ (∀ (st : List Nat) (chunk i : Nat), (∀ x ∈ st, x < 2 ^ 32) → chunk < 2 ^ 32 →
        ∀ x ∈ shorChunkUpdate chunk i st, x < 2 ^ 32)
    ∧ (∀ (padded st : List Nat) (bi : Nat), (∀ x ∈ st, x < 2 ^ 32) →
        (∀ y ∈ padded, y < 256) → ∀ x ∈ shorBlock padded st bi, x < 2 ^ 32)
    ∧ (∀ (st : List Nat) (len32 i : Nat), (∀ x ∈ st, x < 2 ^ 32) → len32 < 2 ^ 32 →
        ∀ x ∈ shorFinalizeWord len32 st i, x < 2 ^ 32)
    ∧ (∀ (st : List Nat) (dataLen : Nat), (∀ x ∈ st, x < 2 ^ 32) →
        ∀ x ∈ shorFinalize dataLen st, x < 2 ^ 32)
    ∧ (∀ (st : List Nat) (i j : Nat), (∀ x ∈ st, x < 2 ^ 32) →
        ∀ x ∈ hybridMixStep st i j, x < 2 ^ 32)
    ∧ (∀ st : List Nat, (∀ x ∈ st, x < 2 ^ 32) → ∀ x ∈ hybridMix st, x < 2 ^ 32) :=
  mixing_primitives_total 3 5 7 (by norm_num) (by norm_num) (by norm_num) (by norm_num)

theorem foldl_length_eq {β : Type} (f : List Nat → β → List Nat)
    (h : ∀ s x, (f s x).length = s.length) :
    ∀ (l : List β) (s : List Nat), (l.foldl f s).length = s.length
  | [], _ => rfl
  | x :: l, s => by rw [List.foldl_cons, foldl_length_eq f h l (f s x), h]

theorem groverChunkUpdate_length (c : Nat) (st : List Nat) :
    (groverChunkUpdate c st).length = st.length := by
  simp [groverChunkUpdate]

theorem groverDiffuse_length (st : List Nat) :
    (groverDiffuse st).length = st.length := by
  simp [groverDiffuse]

theorem groverAbsorb_length (d st : List Nat) :
    (groverAbsorb d st).length = st.length :=
  foldl_length_eq _
    (fun s c => by rw [groverDiffuse_length, groverChunkUpdate_length]) _ _

theorem groverFinalRound_length (st : List Nat) (r : Nat) :
    (groverFinalRound st r).length = st.length := by
  simp [groverFinalRound]

theorem groverFinalMix_length (ds : Nat) (st : List Nat) :
    (groverFinalMix ds st).length = st.length :=
  foldl_length_eq _ (fun s r => groverFinalRound_length s r) _ _

theorem groverInitState_length (ds : Nat) : (groverInitState ds).length = ds := by
  simp [groverInitState]

theorem grover_hash_eq (data : List Nat) (ds : Nat) :
    numba_enhanced_grover_hash data ds =
      stateToBytes (ds / 4)
        (groverFinalMix ds (groverAbsorb (if data.isEmpty then [0] else data)
          (groverInitState ds))) ds := rfl

theorem stateToBytes_getElem (cap : Nat) (st : List Nat) (ds j : Nat)
    (h : j < (stateToBytes cap st ds).length) :
    (stateToBytes cap st ds)[j] =
      if j / 4 < min st.length cap then
        (st.getD (j / 4) 0 >>> ((j % 4) * 8)) &&& 0xFF
      else 0 := by
  simp [stateToBytes]

theorem stateToBytes_length (cap : Nat) (st : List Nat) (ds : Nat) :
    (stateToBytes cap st ds).length = ds := by
  simp [stateToBytes]

theorem grover_hash_length (data : List Nat) (ds : Nat) :
    (numba_enhanced_grover_hash data ds).length = ds := by
  rw [grover_hash_eq]
  exact stateToBytes_length _ _ _

theorem shor_hash_length (data : List Nat) (ds : Nat) :
    (numba_enhanced_shor_hash data ds).length = ds := by
  simp [numba_enhanced_shor_hash, stateToBytes]

theorem hybrid_hash_length (data : List Nat) (ds : Nat) :
    (numba_enhanced_hybrid_hash data ds).length = ds := by
  simp [numba_enhanced_hybrid_hash, hybridCombine]

theorem primes_getD_mem (i : Nat) : PRIMES.getD (i % PRIMES.length) 0 ∈ PRIMES := by
  have hk : ∀ k, k < 12 → PRIMES.getD k 0 ∈ PRIMES := by decide
  have hlt : i % PRIMES.length < 12 := by
    have h12 : PRIMES.length = 12 := rfl
    rw [h12]
    exact Nat.mod_lt _ (by norm_num)
  exact hk _ hlt

theorem stateToBytes_getD (cap : Nat) (st : List Nat) (ds j : Nat) (h : j < ds) :
    (stateToBytes cap st ds).getD j 0 =
      if j / 4 < min st.length cap then
        (st.getD (j / 4) 0 >>> ((j % 4) * 8)) &&& 0xFF
      else 0 := by
  have hlen : j < (stateToBytes cap st ds).length := by
    rw [stateToBytes_length]; exact h
  rw [List.getD_eq_getElem _ _ hlen]
  exact stateToBytes_getElem cap st ds j hlen

theorem grover_hash_getD (data : List Nat) (ds j : Nat) (h : j < ds) :
    (numba_enhanced_grover_hash data ds).getD j 0 =
      if j / 4 < ds / 4 then
        ((groverFinalMix ds (groverAbsorb (if data.isEmpty then [0] else data)
            (groverInitState ds))).getD (j / 4) 0 >>> ((j % 4) * 8)) &&& 0xFF
      else 0 := by
  have hST : (groverFinalMix ds (groverAbsorb (if data.isEmpty then [0] else data)
      (groverInitState ds))).length = ds := by
    rw [groverFinalMix_length, groverAbsorb_length, groverInitState_length]
  rw [grover_hash_eq, stateToBytes_getD _ _ _ _ h, hST,
    Nat.min_eq_right (Nat.div_le_self ds 4)]

/-- C4: for every input and every digest size the three hash families
return a digest of exactly `digest_size` bytes.  The size guard `2 ≤ ds`
marks the sizes every family supports: in Python the shor function
raises `ZeroDivisionError` at size 0 and the hybrid function fails below
size 2 (its shor half is called with size 0). -/
theorem digest_length (data : List Nat) (ds : Nat) (h2 : 2 ≤ ds) :
    (numba_enhanced_grover_hash data ds).length = ds
    ∧ (numba_enhanced_shor_hash data ds).length = ds
    ∧ (numba_enhanced_hybrid_hash data ds).length = ds :=
  ⟨grover_hash_length data ds, shor_hash_length data ds, hybrid_hash_length data ds⟩

/-- Witness for C4 at the default digest size 32. -/
theorem digest_length_witness :
    (numba_enhanced_grover_hash [65] 32).length = 32
    ∧ (numba_enhanced_shor_hash [65] 32).length = 32
    ∧ (numba_enhanced_hybrid_hash [65] 32).length = 32 :=
  digest_length [65] 32 (by norm_num)

/-- C10: when the digest size is not a multiple of 4 the grover hash
leaves the trailing `ds % 4` output bytes at zero for every input, and
for digest sizes below 4 the whole grover digest is zero bytes. -/
theorem grover_tail_zero (data : List Nat) (ds : Nat) :
    (numba_enhanced_grover_hash data ds).drop (4 * (ds / 4)) = List.replicate (ds % 4) 0
    ∧ (ds < 4 → numba_enhanced_grover_hash data ds = List.replicate ds 0) := by
  have hL : (numba_enhanced_grover_hash data ds).length = ds := grover_hash_length data ds
  constructor
  · rw [List.eq_replicate_iff]
    refine ⟨by rw [List.length_drop, hL]; omega, ?_⟩
    intro b hb
    rw [List.mem_iff_getElem] at hb
    obtain ⟨i, hi, rfl⟩ := hb
    rw [List.getElem_drop]
    have hi' : i < ds % 4 := by
      rw [List.length_drop, hL] at hi; omega
    have hb2 : 4 * (ds / 4) + i < (numba_enhanced_grover_hash data ds).length := by
      rw [hL]; omega
    rw [← List.getD_eq_getElem _ 0 hb2, grover_hash_getD data ds _ (by omega)]
    have hno : ¬ ((4 * (ds / 4) + i) / 4 < ds / 4) := by omega
    rw [if_neg hno]
  · intro h4
    apply List.ext_getElem
    · rw [hL, List.length_replicate]
    · intro n h1 h2
      rw [List.getElem_replicate]
      have hn : n < ds := by rw [hL] at h1; exact h1
      rw [← List.getD_eq_getElem _ 0 h1, grover_hash_getD data ds n hn]
      have hno : ¬ (n / 4 < ds / 4) := by omega
      rw [if_neg hno]

/-- Witness for C10: the grover digest of `[3, 1, 4]` at size 3 is all
zero bytes. -/
theorem grover_tail_zero_witness :
    numba_enhanced_grover_hash [3, 1, 4] 3 = List.replicate 3 0 :=
  (grover_tail_zero [3, 1, 4] 3).2 (by norm_num)

/-- C5 (amended): the shor hash state has `ceil(digest_size / 4)` words
and the grover hash state has `digest_size` words, both seeded cyclically
from the `PRIMES` table; the hybrid final-mixing state also has
`ceil(digest_size / 4)` words (but is packed from digest bytes, not
prime-seeded). -/
theorem hash_state_shapes (ds : Nat) :
    (groverInitState ds).length = ds
    ∧ (shorInitState ds).length = (ds + 3) / 4
    ∧ (∀ bytes : List Nat, (packWords bytes ((ds + 3) / 4)).length = (ds + 3) / 4)
    ∧ (∀ x ∈ groverInitState ds, x ∈ PRIMES)
    ∧ (∀ x ∈ shorInitState ds, x ∈ PRIMES) := by
  refine ⟨groverInitState_length ds, by simp [shorInitState],
    fun bytes => by simp [packWords], ?_, ?_⟩
  · intro x hx
    simp only [groverInitState, List.mem_map, List.mem_range] at hx
    obtain ⟨i, _, rfl⟩ := hx
    exact primes_getD_mem i
  · intro x hx
    simp only [shorInitState, List.mem_map, List.mem_range] at hx
    obtain ⟨i, _, rfl⟩ := hx
    exact primes_getD_mem i

/-- Counterexample for C5 as stated: at the default digest size 32 the
grover hash state has 32 words, not `ceil(32 / 4) = 8`. -/
theorem groverInit_not_ceil :
    (groverInitState 32).length = 32 ∧ ¬ ((groverInitState 32).length = (32 + 3) / 4) := by
  constructor
  · decide
  · decide

/-- C3: for every supported digest size each algorithm family hashes the
empty byte string to the same digest as the single byte `0x00`, and the
digest has exactly `digest_size` bytes (in particular 32 bytes at the
default size 32, the instantiation proved by the witness). -/
theorem empty_input_remap (ds : Nat) (h2 : 2 ≤ ds) :
    numba_enhanced_grover_hash [] ds = numba_enhanced_grover_hash [0] ds
    ∧ (numba_enhanced_grover_hash [] ds).length = ds
    ∧ numba_enhanced_shor_hash [] ds = numba_enhanced_shor_hash [0] ds
    ∧ (numba_enhanced_shor_hash [] ds).length = ds
    ∧ numba_enhanced_hybrid_hash [] ds = numba_enhanced_hybrid_hash [0] ds
    ∧ (numba_enhanced_hybrid_hash [] ds).length = ds :=
  ⟨rfl, grover_hash_length [] ds, rfl, shor_hash_length [] ds, rfl,
    hybrid_hash_length [] ds⟩

/-- Witness for C3 at the default digest size 32. -/
theorem empty_input_remap_witness :
    numba_enhanced_grover_hash [] 32 = numba_enhanced_grover_hash [0] 32
    ∧ (numba_enhanced_grover_hash [] 32).length = 32
    ∧ numba_enhanced_shor_hash [] 32 = numba_enhanced_shor_hash [0] 32
    ∧ (numba_enhanced_shor_hash [] 32).length = 32
    ∧ numba_enhanced_hybrid_hash [] 32 = numba_enhanced_hybrid_hash [0] 32
    ∧ (numba_enhanced_hybrid_hash [] 32).length = 32 :=
  empty_input_remap 32 (by norm_num)

theorem shor_hash_eq (data : List Nat) (ds : Nat) :
    numba_enhanced_shor_hash data ds =
      stateToBytes (ds / 4 + 1)
        (shorFinalize (if data.isEmpty then [0] else data).length
          ((List.range ((shorPad (if data.isEmpty then [0] else data)).length / 64)).foldl
            (fun st b => shorBlock (shorPad (if data.isEmpty then [0] else data)) st b)
            (shorInitState ds))) ds := rfl

theorem grover_hash_bytes_lt (data : List Nat) (ds : Nat) :
    ∀ x ∈ numba_enhanced_grover_hash data ds, x < 256 := by
  intro x hx
  rw [grover_hash_eq] at hx
  simp only [stateToBytes, List.mem_map, List.mem_range] at hx
  obtain ⟨i, _, rfl⟩ := hx
  split_ifs
  all_goals first
  | exact lt_of_le_of_lt Nat.and_le_right (by norm_num)
  | norm_num

theorem shor_hash_bytes_lt (data : List Nat) (ds : Nat) :
    ∀ x ∈ numba_enhanced_shor_hash data ds, x < 256 := by
  intro x hx
  rw [shor_hash_eq] at hx
  simp only [stateToBytes, List.mem_map, List.mem_range] at hx
  obtain ⟨i, _, rfl⟩ := hx
  split_ifs
  all_goals first
  | exact lt_of_le_of_lt Nat.and_le_right (by norm_num)
  | norm_num

theorem hybrid_hash_bytes_lt (data : List Nat) (ds : Nat) :
    ∀ x ∈ numba_enhanced_hybrid_hash data ds, x < 256 := by
  intro x hx
  simp only [numba_enhanced_hybrid_hash, hybridCombine, List.mem_map,
    List.mem_range] at hx
  obtain ⟨i, _, rfl⟩ := hx
  exact lt_of_le_of_lt Nat.and_le_right (by norm_num)

/-- C8 (amended): once inputs are admitted, the hash computation is
total and well-formed for every input byte string: it returns a digest
of exactly `digest_size` bytes, all valid byte values.  The guard
`2 ≤ ds` marks the digest sizes every family completes on (Python
raises `ZeroDivisionError` for shor at size 0 and for hybrid below
size 2).  No `UnsupportedDigestSize` failure exists: digest sizes an
algorithm cannot fill unambiguously are handled silently (the
counterexample shows the grover digest at size 3 is identically zero). -/
theorem hash_total_wellformed (data : List Nat) (ds : Nat) (h2 : 2 ≤ ds) :
    ((numba_enhanced_grover_hash data ds).length = ds
      ∧ ∀ x ∈ numba_enhanced_grover_hash data ds, x < 256)
    ∧ ((numba_enhanced_shor_hash data ds).length = ds
      ∧ ∀ x ∈ numba_enhanced_shor_hash data ds, x < 256)
    ∧ ((numba_enhanced_hybrid_hash data ds).length = ds
      ∧ ∀ x ∈ numba_enhanced_hybrid_hash data ds, x < 256) :=
  ⟨⟨grover_hash_length data ds, grover_hash_bytes_lt data ds⟩,
   ⟨shor_hash_length data ds, shor_hash_bytes_lt data ds⟩,
   ⟨hybrid_hash_length data ds, hybrid_hash_bytes_lt data ds⟩⟩

/-- Witness for C8 at input `[1, 2, 3]` and digest size 7. -/
theorem hash_total_wellformed_witness :
    ((numba_enhanced_grover_hash [1, 2, 3] 7).length = 7
      ∧ ∀ x ∈ numba_enhanced_grover_hash [1, 2, 3] 7, x < 256)
    ∧ ((numba_enhanced_shor_hash [1, 2, 3] 7).length = 7
      ∧ ∀ x ∈ numba_enhanced_shor_hash [1, 2, 3] 7, x < 256)
    ∧ ((numba_enhanced_hybrid_hash [1, 2, 3] 7).length = 7
      ∧ ∀ x ∈ numba_enhanced_hybrid_hash [1, 2, 3] 7, x < 256) :=
  hash_total_wellformed [1, 2, 3] 7 (by norm_num)

/-- Counterexample for C8 as stated: digest size 3 is not rejected with
an up-front `UnsupportedDigestSize` failure; the grover hash completes
and silently returns the all-zero digest for different inputs. -/
theorem grover_silent_at_ambiguous_size :
    numba_enhanced_grover_hash [42] 3 = [0, 0, 0]
    ∧ numba_enhanced_grover_hash [99, 1] 3 = [0, 0, 0] := by
  exact ⟨by decide, by decide⟩

/-- C2 (amended): for every nonempty input the hybrid hash equals the
spec's construction (grover half on the `0x01`-prefixed input, shor half
on the `0x02`-prefixed input, byte interleaving with XOR tail, 4 global
mixing rounds); empty input is first remapped to the single byte `0x00`
and only then prefixed, so on empty input the code equals the
construction applied to `[0x00]`, not to `[]`. -/
theorem hybrid_matches_spec_construction (data : List Nat) (ds : Nat) (hne : data ≠ []) :
    numba_enhanced_hybrid_hash data ds = hybridSpecConstruction data ds := by
  have he : data.isEmpty = false := by
    cases data with
    | nil => exact absurd rfl hne
    | cons a l => rfl
  simp [numba_enhanced_hybrid_hash, hybridSpecConstruction, he]

/-- Witness for C2 at input `[5]` and digest size 4. -/
theorem hybrid_matches_spec_construction_witness :
    numba_enhanced_hybrid_hash [5] 4 = hybridSpecConstruction [5] 4 :=
  hybrid_matches_spec_construction [5] 4 (by decide)

/-- Counterexample for C2 as stated: on the empty input the hybrid hash
differs from the claim's construction, because the code remaps empty
input to `[0x00]` before prefixing the domain-separation bytes. -/
theorem hybrid_spec_construction_empty_diff :
    numba_enhanced_hybrid_hash [] 4 ≠ hybridSpecConstruction [] 4 := by
  decide

/-- C9: the dispatcher's availability-based backend choice never changes
the digest: with or without the C extensions, `optimized_grover_hash`,
`optimized_shor_hash` and `optimized_hybrid_hash` return exactly the
scalar implementation's digest for every input and digest size. -/
theorem backend_agreement (haveC : Bool) (data : List Nat) (ds : Nat) :
    optimized_grover_hash haveC data ds = numba_enhanced_grover_hash data ds
    ∧ optimized_shor_hash haveC data ds = numba_enhanced_shor_hash data ds
    ∧ optimized_hybrid_hash haveC data ds = numba_enhanced_hybrid_hash data ds := by
  cases haveC <;> exact ⟨rfl, rfl, rfl⟩

namespace LamportSignature

theorem getD_map_range {α : Type} (f : Nat → α) (n i : Nat) (d : α) (h : i < n) :
    ((List.range n).map f).getD i d = f i := by
  rw [List.getD_eq_getElem?_getD, List.getElem?_map, List.getElem?_range h]
  rfl

theorem digestBit_ok (digest : List Nat) (i : Nat) (hi : i < 256)
    (hd : 32 ≤ digest.length) :
    digestBit digest i = .ok (digestBitP digest i) := by
  unfold digestBit
  rw [if_pos]
  omega

theorem signLoop_eq (digest : List Nat) (pf : Nat → List Nat × List Nat)
    (hd : 32 ≤ digest.length) :
    ∀ L : List Nat, (∀ i ∈ L, i < 256) →
      signLoop digest ((List.range 256).map pf) L
        = .ok (L.map fun i => if digestBitP digest i = 1 then (pf i).2 else (pf i).1)
  | [], _ => rfl
  | i :: L, hL => by
    have hi : i < 256 := hL i (List.mem_cons_self i L)
    have hrec := signLoop_eq digest pf hd L (fun j hj => hL j (List.mem_cons_of_mem _ hj))
    have hlen : i < ((List.range 256).map pf).length := by simp [hi]
    simp [signLoop, digestBit_ok digest i hi hd, hrec, hlen, hi,
      List.getElem?_range hi]

theorem verifyLoop_all (H : List Nat → List Nat) (digest : List Nat)
    (sigf : Nat → List Nat) (pubf : Nat → List Nat × List Nat)
    (hd : 32 ≤ digest.length) :
    ∀ L : List Nat, (∀ i ∈ L, i < 256) →
      verifyLoop H digest ((List.range 256).map sigf) ((List.range 256).map pubf) L
        = .ok (L.all fun i =>
            decide (H (sigf i)
              = if digestBitP digest i = 1 then (pubf i).2 else (pubf i).1))
  | [], _ => rfl
  | i :: L, hL => by
    have hi : i < 256 := hL i (List.mem_cons_self i L)
    have hrec := verifyLoop_all H digest sigf pubf hd L
      (fun j hj => hL j (List.mem_cons_of_mem _ hj))
    have hsig : i < ((List.range 256).map sigf).length := by simp [hi]
    have hpub : i < ((List.range 256).map pubf).length := by simp [hi]
    by_cases hmatch : H (sigf i)
        = if digestBitP digest i = 1 then (pubf i).2 else (pubf i).1
    · simp [verifyLoop, digestBit_ok digest i hi hd, hsig, hpub, hi,
        List.getElem?_range hi, hmatch, hrec]
    · simp [verifyLoop, digestBit_ok digest i hi hd, hsig, hpub, hi,
        List.getElem?_range hi, hmatch]

end LamportSignature

/-- C1: for every digest function `H` whose message digest has (at
least) the 32 bytes the bit loop indexes, every key pair produced by
`generate_keypair` (public entries are the `H`-hashes of the drawn
secrets) and every message `m`, signing `m` with the private key and
verifying against the public key returns `true`. -/
theorem lamport_roundtrip (H : List Nat → List Nat) (sk : Nat → Nat → List Nat)
    (m : List Nat) (hH : 32 ≤ (H m).length) :
    (LamportSignature.sign H m (LamportSignature.generate_keypair H sk).1).bind
      (fun sig => LamportSignature.verify H m sig
        (LamportSignature.generate_keypair H sk).2) = Except.ok true := by
  have hall : ∀ i ∈ List.range 256, i < 256 := fun i hi => List.mem_range.mp hi
  have h1 : LamportSignature.sign H m (LamportSignature.generate_keypair H sk).1
      = Except.ok ((List.range 256).map fun i =>
          if LamportSignature.digestBitP (H m) i = 1 then sk i 1 else sk i 0) := by
    unfold LamportSignature.sign LamportSignature.generate_keypair
    exact LamportSignature.signLoop_eq (H m) (fun i => (sk i 0, sk i 1)) hH
      (List.range 256) hall
  rw [h1]
  show LamportSignature.verify H m
    ((List.range 256).map fun i =>
      if LamportSignature.digestBitP (H m) i = 1 then sk i 1 else sk i 0)
    (LamportSignature.generate_keypair H sk).2 = Except.ok true
  have h2 : LamportSignature.verify H m
      ((List.range 256).map fun i =>
        if LamportSignature.digestBitP (H m) i = 1 then sk i 1 else sk i 0)
      (LamportSignature.generate_keypair H sk).2
      = Except.ok ((List.range 256).all fun i =>
          decide (H (if LamportSignature.digestBitP (H m) i = 1 then sk i 1 else sk i 0)
            = if LamportSignature.digestBitP (H m) i = 1
              then H (sk i 1) else H (sk i 0))) := by
    unfold LamportSignature.verify LamportSignature.generate_keypair
    exact LamportSignature.verifyLoop_all H (H m)
      (fun i => if LamportSignature.digestBitP (H m) i = 1 then sk i 1 else sk i 0)
      (fun i => (H (sk i 0), H (sk i 1))) hH (List.range 256) hall
  rw [h2]
  have h3 : ((List.range 256).all fun i =>
      decide (H (if LamportSignature.digestBitP (H m) i = 1 then sk i 1 else sk i 0)
        = if LamportSignature.digestBitP (H m) i = 1
          then H (sk i 1) else H (sk i 0))) = true := by
    rw [List.all_eq_true]
    intro i _
    by_cases hbit : LamportSignature.digestBitP (H m) i = 1 <;> simp [hbit]
  rw [h3]

/-- Witness for C1 with the constant digest function and constant
secrets. -/
theorem lamport_roundtrip_witness :
    (LamportSignature.sign (fun _ => List.replicate 32 0) []
        (LamportSignature.generate_keypair (fun _ => List.replicate 32 0)
          (fun _ _ => [])).1).bind
      (fun sig => LamportSignature.verify (fun _ => List.replicate 32 0) [] sig
        (LamportSignature.generate_keypair (fun _ => List.replicate 32 0)
          (fun _ _ => [])).2) = Except.ok true :=
  lamport_roundtrip (fun _ => List.replicate 32 0) (fun _ _ => []) [] (by decide)

/-- C7 (amended): a well-formed signature whose hashed elements do not
all match the selected public-key entries makes `verify` return `false`
as a normal outcome, with no exception; a signature or key of the wrong
shape instead fails with the generic Python lookup errors the code
actually raises — `IndexError` for a missing signature element and
`KeyError` for a missing private-key entry — not with a dedicated
`InvalidKeyMaterial` error, which does not exist in the code. -/
theorem lamport_mismatch_and_errors (H : List Nat → List Nat) (m : List Nat)
    (sigf : Nat → List Nat) (pubf : Nat → List Nat × List Nat)
    (hH : 32 ≤ (H m).length) :
    ((∃ i, i < 256 ∧ H (sigf i) ≠ LamportSignature.expectedEntry H m pubf i) →
      LamportSignature.verify H m ((List.range 256).map sigf)
        ((List.range 256).map pubf) = .ok false)
    ∧ LamportSignature.verify H m [] ((List.range 256).map pubf)
        = .error .indexError
    ∧ LamportSignature.sign H m [] = .error .keyError
    ∧ PyError.indexError ≠ PyError.invalidKeyMaterial := by
  refine ⟨?_, ?_, ?_, by decide⟩
  · rintro ⟨i0, hi0, hne⟩
    have hall : ∀ i ∈ List.range 256, i < 256 := fun i hi => List.mem_range.mp hi
    have hver := LamportSignature.verifyLoop_all H (H m) sigf pubf hH
      (List.range 256) hall
    unfold LamportSignature.verify
    rw [hver]
    have hfalse : ((List.range 256).all fun i =>
        decide (H (sigf i) = if LamportSignature.digestBitP (H m) i = 1
          then (pubf i).2 else (pubf i).1)) = false := by
      by_contra hcon
      have htrue : ((List.range 256).all fun i =>
          decide (H (sigf i) = if LamportSignature.digestBitP (H m) i = 1
            then (pubf i).2 else (pubf i).1)) = true := by
        cases hb : ((List.range 256).all fun i =>
            decide (H (sigf i) = if LamportSignature.digestBitP (H m) i = 1
              then (pubf i).2 else (pubf i).1)) with
        | false => exact absurd hb hcon
        | true => rfl
      rw [List.all_eq_true] at htrue
      have := htrue i0 (List.mem_range.mpr hi0)
      rw [decide_eq_true_eq] at this
      exact hne this
    rw [hfalse]
  · have h0 : 0 / 8 < (H m).length := by omega
    unfold LamportSignature.verify
    rw [show (256 : Nat) = 255 + 1 from rfl, List.range_succ_eq_map]
    simp [LamportSignature.verifyLoop, LamportSignature.digestBit, h0]
  · have h0 : 0 / 8 < (H m).length := by omega
    unfold LamportSignature.sign
    rw [show (256 : Nat) = 255 + 1 from rfl, List.range_succ_eq_map]
    simp [LamportSignature.signLoop, LamportSignature.digestBit, h0]

/-- Witness for C7: with the constant digest function, an all-`[1]`
signature against an all-empty public key fails verification with
`false` (no exception). -/
theorem lamport_mismatch_and_errors_witness :
    LamportSignature.verify (fun _ => List.replicate 32 0) []
      ((List.range 256).map fun _ => [1])
      ((List.range 256).map fun _ => ([], [])) = .ok false :=
  (lamport_mismatch_and_errors (fun _ => List.replicate 32 0) [] (fun _ => [1])
    (fun _ => ([], [])) (by decide)).1 ⟨0, by decide, by decide⟩

/-- Counterexample for C7 as stated: a wrong-shaped (empty) signature
makes `verify` fail with the generic `IndexError`, which is not the
`InvalidKeyMaterial` error the claim names (no such error exists in the
code). -/
theorem lamport_malformed_raises_lookup_error :
    LamportSignature.verify (fun _ => List.replicate 32 0) [] []
      ((List.range 256).map fun _ => ([], [])) = .error .indexError
    ∧ PyError.indexError ≠ PyError.invalidKeyMaterial := by
  exact ⟨rfl, by decide⟩

end DiracHashes
